import Mathlib

/-
Shallow embedding of hlmon's src/main.go (a single-file validator heartbeat
monitor).  Go float64 values are modelled as rationals (the program only
compares and copies them); Go's encoding/json values are modelled by the
inductive `Json` below; the Go map built by ValidatorData.UnmarshalJSON is
modelled as an association list with replace-on-insert, which preserves the
key-uniqueness of a Go map.
-/

namespace Hlmon

/-- Model of a decoded JSON value (the result of Go's json.Unmarshal into
interface: null, bool, number, string, array, or object). -/
inductive Json where
  | null : Json
  | bool (b : Bool) : Json
  | num (q : ℚ) : Json
  | str (s : String) : Json
  | arr (elems : List Json) : Json
  | obj (fields : List (String × Json)) : Json

/-- Last value bound to key `k` in an object's field list; Go's
encoding/json lets a later duplicate key overwrite an earlier one. -/
def lookupLast (fs : List (String × Json)) (k : String) : Option Json :=
  fs.foldl (fun acc p => if p.1 = k then some p.2 else acc) none

/-- Model of Go struct HeartbeatStatus (src/main.go lines 34-37):
SinceLastSuccess float64, LastAckDuration *float64 (nil = absent). -/
structure HeartbeatStatus where
  sinceLastSuccess : ℚ
  lastAckDuration : Option ℚ
deriving DecidableEq, Repr

/-- Decoding a JSON value into a Go float64 field: a missing key or a null
value leaves the zero value 0 (Go: null is a no-op), a number gives its
value, anything else is a type error. -/
def decodeNumField : Option Json → Option ℚ
  | none => some 0
  | some Json.null => some 0
  | some (Json.num q) => some q
  | some _ => none

/-- Decoding a JSON value into a Go *float64 field: a missing key or null
gives nil (absent), a number allocates a pointer to that value, anything
else is a type error. -/
def decodeOptNumField : Option Json → Option (Option ℚ)
  | none => some none
  | some Json.null => some none
  | some (Json.num q) => some (some q)
  | some _ => none

/-- Model of json.Unmarshal into HeartbeatStatus: the value must be an
object (or null, which Go treats as a no-op yielding the zero struct);
field tags are "since_last_success" and "last_ack_duration". -/
def decodeHeartbeatStatus : Json → Option HeartbeatStatus
  | Json.null => some ⟨0, none⟩
  | Json.obj fs => do
      let s ← decodeNumField (lookupLast fs "since_last_success")
      let d ← decodeOptNumField (lookupLast fs "last_ack_duration")
      pure ⟨s, d⟩
  | _ => none

/-- Go map insertion m[k] = v, modelled on an association list: replace the
existing binding if the key is present, otherwise append. -/
def mapInsert (m : List (String × HeartbeatStatus)) (k : String)
    (v : HeartbeatStatus) : List (String × HeartbeatStatus) :=
  if m.any (fun p => p.1 = k) then
    m.map (fun p => if p.1 = k then (k, v) else p)
  else
    m ++ [(k, v)]

/-- Go map lookup m[k]. -/
def mapLookup (m : List (String × HeartbeatStatus)) (k : String) :
    Option HeartbeatStatus :=
  (m.find? (fun p => p.1 = k)).map Prod.snd

/-- One iteration of the conversion loop in ValidatorData.UnmarshalJSON
(src/main.go lines 87-108): skip entries that are not length 2, whose first
element is not a string, or whose second element does not decode into a
HeartbeatStatus; otherwise insert into the map.  (The json.Marshal of
entry[1] followed by json.Unmarshal is the identity round trip on the JSON
value, so the model decodes entry[1] directly.) -/
def convertStep (m : List (String × HeartbeatStatus)) (entry : List Json) :
    List (String × HeartbeatStatus) :=
  match entry with
  | [k0, v1] =>
      match k0 with
      | Json.str key =>
          match decodeHeartbeatStatus v1 with
          | some hs => mapInsert m key hs
          | none => m
      | _ => m
  | _ => m

/-- The whole conversion loop: fold convertStep over the decoded pair list,
starting from the freshly made empty map. -/
def convertPairs (pairs : List (List Json)) : List (String × HeartbeatStatus) :=
  pairs.foldl convertStep []

/-- A pair that the conversion loop actually inserts under key `k`. -/
def insertsKey (k : String) (entry : List Json) : Prop :=
  ∃ v hs, entry = [Json.str k, v] ∧ decodeHeartbeatStatus v = some hs

/-- A well-formed pair: length 2, string key, decodable status value. -/
def wellFormedPair (entry : List Json) : Prop :=
  ∃ k, insertsKey k entry

/-- Model of Go struct ValidatorData (src/main.go lines 28-32), with the
heartbeat_statuses map already normalized. -/
structure ValidatorData where
  homeValidator : String
  validatorsMissingHeartbeat : List String
  heartbeatStatuses : List (String × HeartbeatStatus)
deriving DecidableEq, Repr

/-- Decoding a JSON value into a Go string field (missing or null keeps
the zero value ""). -/
def decodeStringField : Option Json → Option String
  | none => some ""
  | some Json.null => some ""
  | some (Json.str s) => some s
  | some _ => none

/-- Decoding one element of a []string (null elements become ""). -/
def decodeStrElem : Json → Option String
  | Json.null => some ""
  | Json.str s => some s
  | _ => none

/-- Decoding a JSON value into a Go []string field. -/
def decodeStrList : Option Json → Option (List String)
  | none => some []
  | some Json.null => some []
  | some (Json.arr l) => l.mapM decodeStrElem
  | some _ => none

/-- Decoding one element of the raw pair list; a null element becomes a
nil inner slice (length 0), an array keeps its raw elements. -/
def decodePairElem : Json → Option (List Json)
  | Json.null => some []
  | Json.arr l => some l
  | _ => none

/-- Decoding a JSON value into the auxiliary field of type two-level slice
of interface values used for heartbeat_statuses. -/
def decodePairList : Option Json → Option (List (List Json))
  | none => some []
  | some Json.null => some []
  | some (Json.arr l) => l.mapM decodePairElem
  | some _ => none

/-- Model of ValidatorData.UnmarshalJSON (src/main.go lines 70-111): decode
the auxiliary structure (failing on a type error in any field), then run
the conversion loop over the raw pair list. -/
def decodeValidatorData : Json → Option ValidatorData
  | Json.null => some ⟨"", [], []⟩
  | Json.obj fs => do
      let hv ← decodeStringField (lookupLast fs "home_validator")
      let vmh ← decodeStrList (lookupLast fs "validators_missing_heartbeat")
      let rawPairs ← decodePairList (lookupLast fs "heartbeat_statuses")
      pure ⟨hv, vmh, convertPairs rawPairs⟩
  | _ => none

/-- Model of Go struct LogArrayEntry (src/main.go lines 39-42). -/
structure LogArrayEntry where
  timestamp : String
  validator : ValidatorData
deriving DecidableEq, Repr

/-- Fractional decimal digits of n/d (n < d), with fuel bounding the
length; only ever evaluated on terminating decimal expansions here. -/
def decDigits : ℕ → ℕ → ℕ → String
  | _, _, 0 => ""
  | n, d, fuel + 1 =>
      if n = 0 then ""
      else toString (n * 10 / d) ++ decDigits (n * 10 % d) d fuel

/-- Model of Go fmt's %v rendering of a float64: shortest decimal form;
faithful on the values this development evaluates it at (integers and
short terminating decimals, whose shortest round-trip form is exactly
their decimal expansion). -/
def goFormatRat (q : ℚ) : String :=
  let sign := if q < 0 then "-" else ""
  let n := q.num.natAbs
  let ip := n / q.den
  let fr := n % q.den
  if fr = 0 then sign ++ toString ip
  else sign ++ toString ip ++ "." ++ decDigits fr q.den 17

/-- Model of the fmt.Sprintf in processLogEntry (src/main.go line 194).
Go's %v renders a non-nil *float64 as its memory address, a runtime value
that is not a function of the snapshot; it is passed in as `ptrRepr`.  A
nil *float64 renders as "<nil>". -/
def alertMessage (ptrRepr addr : String) (status : HeartbeatStatus) : String :=
  "Alert for HyperLiq validator " ++ addr ++ ":\nsince_last_success = " ++
    goFormatRat status.sinceLastSuccess ++ ", last_ack_duration = " ++
    (match status.lastAckDuration with
     | none => "<nil>"
     | some _ => ptrRepr)

/-- The zero value a failed Go comma-ok map lookup leaves in `status`. -/
def zeroStatus : HeartbeatStatus := ⟨0, none⟩

/-- The found-branch alert condition (src/main.go line 193); the
dereference of LastAckDuration is guarded by the nil check, modelled by
the match. -/
def foundCond (status : HeartbeatStatus) : Bool :=
  decide (status.sinceLastSuccess > 40) ||
    (match status.lastAckDuration with
     | some d => decide (d > (0.02 : ℚ))
     | none => false) ||
    status.lastAckDuration.isNone

/-- The not-found-branch condition (src/main.go line 198), with Go's
short-circuit evaluation made explicit: the second disjunct dereferences
LastAckDuration without a nil check, which panics (Except.error) when it
is nil, but is only evaluated when the first disjunct is false. -/
def notFoundCond (status : HeartbeatStatus) : Except Unit Bool :=
  if status.sinceLastSuccess ≤ 0 then Except.ok true
  else
    match status.lastAckDuration with
    | none => Except.error ()
    | some d => Except.ok (decide (d ≤ 0))

/-- Model of processLogEntry (src/main.go lines 190-203): look the target
address up in the map; in the found branch alert when foundCond holds; in
the not-found branch `status` is the zero value and the condition may
panic.  Result: Except.error () models a panic, Except.ok (some msg) an
alert sent to both channels, Except.ok none no alert. -/
def processLogEntry (ptrRepr : String) (entry : LogArrayEntry)
    (addr : String) : Except Unit (Option String) :=
  match mapLookup entry.validator.heartbeatStatuses addr with
  | some status =>
      if foundCond status then Except.ok (some (alertMessage ptrRepr addr status))
      else Except.ok none
  | none =>
      match notFoundCond zeroStatus with
      | Except.error e => Except.error e
      | Except.ok true => Except.ok (some (alertMessage ptrRepr addr zeroStatus))
      | Except.ok false => Except.ok none

/-- Outcome of handling the retained raw entry in main (src/main.go lines
150-182); the three error outcomes are each logged by the code. -/
inductive OuterDecode where
  | arrayError : OuterDecode
  | timestampError : OuterDecode
  | validatorError : OuterDecode
  | ok (entry : LogArrayEntry) : OuterDecode
deriving DecidableEq, Repr

/-- Model of main's handling of the last raw entry: unmarshal as a generic
array; unless it is an array of length exactly 2, log the
could-not-unmarshal error; then the first element must be a string
(timestamp), and the second must decode as ValidatorData. -/
def decodeOuter : Json → OuterDecode
  | Json.arr l =>
      match l with
      | [t, v] =>
          match t with
          | Json.str ts =>
              match decodeValidatorData v with
              | some vd => OuterDecode.ok ⟨ts, vd⟩
              | none => OuterDecode.validatorError
          | _ => OuterDecode.timestampError
      | _ => OuterDecode.arrayError
  | _ => OuterDecode.arrayError

/-- Model of the reading loop (src/main.go lines 133-145).  A
json.Decoder streaming over the file yields the complete JSON values at
the head of the file in order; `values` is that successfully decoded
prefix, and lastRawEntry ends up as its last element, of any shape (the
fold mirrors the repeated `lastRawEntry = rawEntry` assignment). -/
def lastDecoded (values : List Json) : Option Json :=
  values.foldl (fun _ j => some j) none

/-- Outcome of one poll cycle's decode-and-evaluate phase.  `stuck`
models the loop never terminating: json.Decoder errors are sticky (the
decoder returns the same error from every later Decode call), and the
loop breaks only on an error whose text is "EOF", so after the first
malformed value it logs the same error forever and never reaches the
evaluation. -/
inductive CycleResult where
  | stuck : CycleResult
  | noEntry : CycleResult
  | arrayError : CycleResult
  | timestampError : CycleResult
  | validatorError : CycleResult
  | evaluated (r : Except Unit (Option String)) : CycleResult

/-- One poll cycle (src/main.go lines 133-183) on a file whose decoded
prefix is `values`; `malformedRest` tells whether decoding then hit a
malformed value (sticky error, loop never terminates) or clean EOF
(retain the last decoded value, and if there is one, decode its outer
shape and evaluate processLogEntry on the resulting entry). -/
def runCycle (ptrRepr addr : String) (values : List Json)
    (malformedRest : Bool) : CycleResult :=
  if malformedRest then CycleResult.stuck
  else
    match lastDecoded values with
    | none => CycleResult.noEntry
    | some j =>
        match decodeOuter j with
        | OuterDecode.arrayError => CycleResult.arrayError
        | OuterDecode.timestampError => CycleResult.timestampError
        | OuterDecode.validatorError => CycleResult.validatorError
        | OuterDecode.ok entry =>
            CycleResult.evaluated (processLogEntry ptrRepr entry addr)

/-- Lexicographic comparison of codepoint lists.  Go compares strings
byte-wise; UTF-8 byte order coincides with codepoint order, so this
models Go's built-in string less-than. -/
def charListLt : List Char → List Char → Bool
  | _, [] => false
  | [], _ :: _ => true
  | c :: cs, d :: ds =>
      if c.toNat < d.toNat then true
      else if d.toNat < c.toNat then false
      else charListLt cs ds

/-- Model of Go's built-in string less-than. -/
def goStringLt (a b : String) : Bool :=
  charListLt a.toList b.toList

/-- Model of Go strconv.Atoi: an optional sign followed by at least one
digit, the whole string, with 64-bit signed range checking (out-of-range
input returns an error, so the comparator falls back to string order). -/
def goAtoi (s : String) : Option Int :=
  match s.toList with
  | [] => none
  | c :: rest =>
      let signed :=
        if c = '-' then (true, rest)
        else if c = '+' then (false, rest)
        else (false, c :: rest)
      if signed.2.isEmpty then none
      else if signed.2.all Char.isDigit then
        let n : ℕ := signed.2.foldl (fun acc ch => acc * 10 + (ch.toNat - 48)) 0
        let v : Int := if signed.1 then -(n : Int) else (n : Int)
        if -(2 ^ 63) ≤ v ∧ v < 2 ^ 63 then some v else none
      else none

/-- The comparator passed to sort.Slice in findLatestFile (src/main.go
lines 263-270): numeric when both names parse as integers, byte-wise
lexicographic string comparison otherwise. -/
def fileLess (a b : String) : Bool :=
  match goAtoi a, goAtoi b with
  | some x, some y => decide (x < y)
  | _, _ => goStringLt a b

/-- Insertion of one element into a list sorted by the fileLess
comparator's non-strict companion (x goes after every y with y < x). -/
def insertSorted (x : String) : List String → List String
  | [] => [x]
  | y :: t => if fileLess y x then y :: insertSorted x t else x :: y :: t

/-- The sort.Slice call, modelled as an insertion sort driven by the
single fileLess comparator.  sort.Slice is an unstable
comparator-respecting sort; wherever fileLess defines a strict weak
order the two agree up to the ordering of comparator-equal names. -/
def sortFiles (files : List String) : List String :=
  files.foldr insertSorted []

/-- Model of findLatestFile (src/main.go lines 245-275) after the
directory listing produced `files`: error when empty, otherwise sort with
the single fileLess comparator and take the last element. -/
def findLatestFile (dirPath : String) (files : List String) :
    Except String String :=
  if files.isEmpty then Except.error ("no files found in " ++ dirPath)
  else Except.ok (dirPath ++ "/" ++ (sortFiles files).getLastD "")

/-- Model of findLatestDir (src/main.go lines 219-244) after the directory
listing produced `dirs`: error when empty, otherwise a linear scan keeping
the lexicographically greatest name. -/
def findLatestDir (basePath : String) (dirs : List String) :
    Except String String :=
  match dirs with
  | [] => Except.error ("no directories found in " ++ basePath)
  | d :: rest =>
      Except.ok (basePath ++ "/" ++
        (d :: rest).foldl (fun acc x => if goStringLt acc x then x else acc) d)

lemma foundCond_iff (status : HeartbeatStatus) :
    foundCond status = true ↔
      (status.sinceLastSuccess > 40 ∨
        (∃ d, status.lastAckDuration = some d ∧ d > (0.02 : ℚ)) ∨
        status.lastAckDuration = none) := by
  unfold foundCond
  cases hd : status.lastAckDuration with
  | none => simp [hd]
  | some d => simp [hd]

/-- C1: for every snapshot whose heartbeat_statuses map contains the
configured target address, the alert evaluator fires an alert iff
since_last_success > 40, or last_ack_duration is present and greater
than 0.02, or last_ack_duration is absent. -/
theorem C1_found_alert_iff (ptrRepr : String) (entry : LogArrayEntry)
    (addr : String) (status : HeartbeatStatus)
    (h : mapLookup entry.validator.heartbeatStatuses addr = some status) :
    (∃ msg, processLogEntry ptrRepr entry addr = Except.ok (some msg)) ↔
      (status.sinceLastSuccess > 40 ∨
        (∃ d, status.lastAckDuration = some d ∧ d > (0.02 : ℚ)) ∨
        status.lastAckDuration = none) := by
  rw [← foundCond_iff]
  unfold processLogEntry
  rw [h]
  by_cases hc : foundCond status = true
  · simp [hc]
  · simp [hc]

/-- Concrete snapshot for the C1 witness: address found with
since_last_success = 10 and last_ack_duration = 0.01. -/
def entC1 : LogArrayEntry :=
  ⟨"t", ⟨"", [], [("v", ⟨10, some (0.01 : ℚ)⟩)]⟩⟩

/-- Witness for C1: in particular, for since_last_success = 10 and
last_ack_duration = 0.01 no alert fires. -/
theorem C1_witness :
    ¬ ∃ msg, processLogEntry "0x1" entC1 "v" = Except.ok (some msg) := by
  intro hex
  have h :=
    (C1_found_alert_iff "0x1" entC1 "v" ⟨10, some (0.01 : ℚ)⟩ rfl).mp hex
  rcases h with h | ⟨d, hd, hgt⟩ | h
  · norm_num at h
  · rw [Option.some.injEq] at hd
    rw [← hd] at hgt
    norm_num at hgt
  · exact Option.noConfusion h

/-- C3 counterexample: a concrete snapshot in which the target address is
absent from heartbeat_statuses.  The claim asserts the dereference of the
nil LastAckDuration is reachable in the not-found branch; in the model a
nil dereference is Except.error (), and the evaluation instead returns
Except.ok with an alert: the zero value's SinceLastSuccess = 0 satisfies
the first disjunct of line 198 and Go's short-circuit evaluation never
reaches the dereference. -/
theorem C3_counterexample :
    processLogEntry "0x1" ⟨"t", ⟨"", [], []⟩⟩ "v" ≠ Except.error () ∧
    processLogEntry "0x1" ⟨"t", ⟨"", [], []⟩⟩ "v" =
      Except.ok (some (alertMessage "0x1" "v" zeroStatus)) := by
  have hcomp : processLogEntry "0x1" ⟨"t", ⟨"", [], []⟩⟩ "v" =
      Except.ok (some (alertMessage "0x1" "v" zeroStatus)) := rfl
  exact ⟨by rw [hcomp]; exact fun h => Except.noConfusion h, hcomp⟩

/-- C3 as amended: in the not-found branch the condition is evaluated on
the zero value left by the failed map lookup; its first disjunct
(SinceLastSuccess = 0 ≤ 0) is always true, so the dereference of the nil
LastAckDuration is never executed (no panic) and an alert always fires. -/
theorem C3_not_found_always_alerts (ptrRepr : String) (entry : LogArrayEntry)
    (addr : String)
    (h : mapLookup entry.validator.heartbeatStatuses addr = none) :
    processLogEntry ptrRepr entry addr =
      Except.ok (some (alertMessage ptrRepr addr zeroStatus)) := by
  unfold processLogEntry
  rw [h]
  rfl

/-- Witness for the amended C3, at a concrete snapshot with an empty
heartbeat_statuses map. -/
theorem C3_witness :
    processLogEntry "0x2" ⟨"s", ⟨"hv", ["w"], []⟩⟩ "w" =
      Except.ok (some (alertMessage "0x2" "w" zeroStatus)) :=
  C3_not_found_always_alerts "0x2" ⟨"s", ⟨"hv", ["w"], []⟩⟩ "w" rfl

/-- C9 counterexample: Go's %v renders the *float64 field as "<nil>" when
nil (the claim says "none"), and as the runtime pointer address when
non-nil (the claim says the numeric value); the last conjunct shows the
rendered message depends on the pointer representation and is therefore
not a pure function of the snapshot and the address. -/
theorem C9_counterexample :
    alertMessage "0xc000012345" "v" ⟨41, none⟩ =
      "Alert for HyperLiq validator v:\nsince_last_success = 41, last_ack_duration = <nil>" ∧
    alertMessage "0xc000012345" "v" ⟨41, none⟩ ≠
      "Alert for HyperLiq validator v:\nsince_last_success = 41, last_ack_duration = none" ∧
    alertMessage "0xc000012345" "v" ⟨41, some (0.05 : ℚ)⟩ =
      "Alert for HyperLiq validator v:\nsince_last_success = 41, last_ack_duration = 0xc000012345" ∧
    alertMessage "0xc000012345" "v" ⟨41, some (0.05 : ℚ)⟩ ≠
      alertMessage "0xdeadbeef" "v" ⟨41, some (0.05 : ℚ)⟩ := by
  refine ⟨rfl, ?_, rfl, ?_⟩ <;> decide

/-- C9 as amended: whenever the evaluator decides to alert, the message
embeds the configured validator address and the rendered
since_last_success of the evaluated status (the found one, or the zero
value in the not-found branch), and renders last_ack_duration as "<nil>"
when absent and as the runtime pointer representation — not the numeric
value — when present. -/
theorem C9_message_shape (ptrRepr : String) (entry : LogArrayEntry)
    (addr : String) (msg : String)
    (h : processLogEntry ptrRepr entry addr = Except.ok (some msg)) :
    ∃ status,
      msg = "Alert for HyperLiq validator " ++ addr ++
          ":\nsince_last_success = " ++ goFormatRat status.sinceLastSuccess ++
          ", last_ack_duration = " ++
          (match status.lastAckDuration with
           | none => "<nil>"
           | some _ => ptrRepr) ∧
      (mapLookup entry.validator.heartbeatStatuses addr = some status ∨
        (mapLookup entry.validator.heartbeatStatuses addr = none ∧
          status = zeroStatus)) := by
  unfold processLogEntry at h
  cases hl : mapLookup entry.validator.heartbeatStatuses addr with
  | some status =>
      rw [hl] at h
      dsimp only at h
      by_cases hc : foundCond status = true
      · refine ⟨status, ?_, Or.inl rfl⟩
        rw [if_pos hc] at h
        have := Except.ok.inj h
        have hm := Option.some.inj this
        rw [← hm]
        rfl
      · rw [if_neg hc] at h
        exact absurd (Option.noConfusion (Except.ok.inj h)) (fun f => f)
  | none =>
      rw [hl] at h
      dsimp only at h
      refine ⟨zeroStatus, ?_, Or.inr ⟨rfl, rfl⟩⟩
      have hnf : notFoundCond zeroStatus = Except.ok true := rfl
      rw [hnf] at h
      dsimp only at h
      have := Except.ok.inj h
      have hm := Option.some.inj this
      rw [← hm]
      rfl

/-- Witness for the amended C9, at a concrete found snapshot with an
absent last_ack_duration. -/
theorem C9_witness :
    ∃ status,
      ("Alert for HyperLiq validator v:\nsince_last_success = 41, last_ack_duration = <nil>" : String) =
        "Alert for HyperLiq validator " ++ "v" ++
          ":\nsince_last_success = " ++ goFormatRat status.sinceLastSuccess ++
          ", last_ack_duration = " ++
          (match status.lastAckDuration with
           | none => "<nil>"
           | some _ => "0x1") ∧
      (mapLookup (⟨"t", ⟨"", [], [("v", ⟨41, none⟩)]⟩⟩ : LogArrayEntry).validator.heartbeatStatuses "v" = some status ∨
        (mapLookup (⟨"t", ⟨"", [], [("v", ⟨41, none⟩)]⟩⟩ : LogArrayEntry).validator.heartbeatStatuses "v" = none ∧
          status = zeroStatus)) :=
  C9_message_shape "0x1" ⟨"t", ⟨"", [], [("v", ⟨41, none⟩)]⟩⟩ "v"
    "Alert for HyperLiq validator v:\nsince_last_success = 41, last_ack_duration = <nil>" rfl

lemma lastDecoded_append_last (values : List Json) (j : Json) :
    lastDecoded (values ++ [j]) = some j := by
  unfold lastDecoded
  rw [List.foldl_append]
  rfl

lemma decodeOuter_not_two_array (j : Json) (h : ∀ a b, j ≠ Json.arr [a, b]) :
    decodeOuter j = OuterDecode.arrayError := by
  cases j with
  | arr l =>
      match l with
      | [] => rfl
      | [a] => rfl
      | [a, b] => exact (h a b rfl).elim
      | a :: b :: c :: t => rfl
  | null => rfl
  | bool b => rfl
  | num q => rfl
  | str s => rfl
  | obj fs => rfl

/-- C2 counterexample: a file of well-formed JSON ending at clean EOF,
whose first decoded value is a 2-element array that would fire an
alert, followed by a trailing value that is valid JSON but not
array-shaped.  The trailing value displaces the array-shaped line
(lastRawEntry keeps the last successful decode of any shape), so the
cycle ends in the logged array-decode error and evaluates nothing,
contrary to the claim. -/
theorem C2_counterexample :
    runCycle "0x1" "v" [Json.arr [Json.str "t",
        Json.obj [("heartbeat_statuses", Json.arr [Json.arr [Json.str "v",
          Json.obj [("since_last_success", Json.num 41)]]])]]] false =
      CycleResult.evaluated
        (Except.ok (some (alertMessage "0x1" "v" ⟨41, none⟩))) ∧
    runCycle "0x1" "v" [Json.arr [Json.str "t",
        Json.obj [("heartbeat_statuses", Json.arr [Json.arr [Json.str "v",
          Json.obj [("since_last_success", Json.num 41)]]])]],
        Json.num 5] false =
      CycleResult.arrayError ∧
    CycleResult.arrayError ≠
      CycleResult.evaluated
        (Except.ok (some (alertMessage "0x1" "v" ⟨41, none⟩))) :=
  ⟨rfl, rfl, fun h => CycleResult.noConfusion h⟩

/-- C2 as amended: when the file's decode stream ends at clean EOF, the
value retained by the reading loop is the last decoded JSON value of
any shape and the cycle outcome depends only on it (earlier lines,
even valid array-shaped records, never trigger alerts on their own);
in particular a trailing value that is valid JSON but not a 2-element
array displaces an earlier array-shaped line, leaving the cycle in the
logged array-decode-error outcome with nothing evaluated.  When the
stream instead hits a malformed value, the decoder error is sticky and
the reading loop never terminates, so the cycle evaluates nothing. -/
theorem C2_cycle_uses_last_decoded (ptrRepr addr : String)
    (values : List Json) (j : Json) :
    runCycle ptrRepr addr (values ++ [j]) false =
      runCycle ptrRepr addr [j] false ∧
    ((∀ a b, j ≠ Json.arr [a, b]) →
      runCycle ptrRepr addr (values ++ [j]) false = CycleResult.arrayError) ∧
    runCycle ptrRepr addr values true = CycleResult.stuck := by
  have hlast : lastDecoded (values ++ [j]) = some j :=
    lastDecoded_append_last values j
  refine ⟨?_, ?_, rfl⟩
  · unfold runCycle
    rw [if_neg Bool.false_ne_true, if_neg Bool.false_ne_true, hlast]
    rfl
  · intro hshape
    unfold runCycle
    rw [if_neg Bool.false_ne_true, hlast]
    dsimp only
    rw [decodeOuter_not_two_array j hshape]

/-- Witness for the amended C2: a trailing bare number after one line
yields the array-decode-error outcome. -/
theorem C2_witness :
    runCycle "0x1" "v" ([Json.str "hello"] ++ [Json.num 5]) false =
      CycleResult.arrayError :=
  (C2_cycle_uses_last_decoded "0x1" "v" [Json.str "hello"]
      (Json.num 5)).2.1
    (fun a b hab => Json.noConfusion hab)

/-- C5: whenever the retained value is not a 2-element array, or is a
2-element array whose first element is not a string, the outer decode
ends in one of the two logged error outcomes and no LogArrayEntry is
produced (so no alert is evaluated from that input). -/
theorem C5_outer_decode_failure (j : Json)
    (h : (∀ l, j = Json.arr l → l.length ≠ 2) ∨
      (∃ a b, j = Json.arr [a, b] ∧ ∀ s, a ≠ Json.str s)) :
    (decodeOuter j = OuterDecode.arrayError ∨
      decodeOuter j = OuterDecode.timestampError) ∧
    ∀ e, decodeOuter j ≠ OuterDecode.ok e := by
  have hres : decodeOuter j = OuterDecode.arrayError ∨
      decodeOuter j = OuterDecode.timestampError := by
    rcases h with hlen | ⟨a, b, rfl, hs⟩
    · cases j with
      | arr l =>
          match l with
          | [] => exact Or.inl rfl
          | [a] => exact Or.inl rfl
          | [a, b] => exact (hlen [a, b] rfl rfl).elim
          | a :: b :: c :: t => exact Or.inl rfl
      | null => exact Or.inl rfl
      | bool b => exact Or.inl rfl
      | num q => exact Or.inl rfl
      | str s => exact Or.inl rfl
      | obj fs => exact Or.inl rfl
    · cases a with
      | str s => exact (hs s rfl).elim
      | null => exact Or.inr rfl
      | bool b2 => exact Or.inr rfl
      | num q => exact Or.inr rfl
      | arr l => exact Or.inr rfl
      | obj fs => exact Or.inr rfl
  refine ⟨hres, fun e hok => ?_⟩
  rcases hres with h1 | h1 <;> rw [h1] at hok <;> exact OuterDecode.noConfusion hok

/-- Witness for C5: a bare number is not an array at all. -/
theorem C5_witness :
    (decodeOuter (Json.num 5) = OuterDecode.arrayError ∨
      decodeOuter (Json.num 5) = OuterDecode.timestampError) ∧
    ∀ e, decodeOuter (Json.num 5) ≠ OuterDecode.ok e :=
  C5_outer_decode_failure (Json.num 5)
    (Or.inl (fun l hl => Json.noConfusion hl))

lemma find?_map_replace_self (k : String) (v : HeartbeatStatus) :
    ∀ m : List (String × HeartbeatStatus), m.any (fun p => p.1 = k) = true →
      (m.map (fun p => if p.1 = k then (k, v) else p)).find?
        (fun p => p.1 = k) = some (k, v) := by
  intro m
  induction m with
  | nil => intro h; simp at h
  | cons p t ih =>
      intro hany
      by_cases hp : p.1 = k
      · simp only [List.map_cons, if_pos hp]
        rw [List.find?_cons_of_pos _ (by simp)]
      · simp only [List.map_cons, if_neg hp]
        rw [List.find?_cons_of_neg _ (by simpa using hp)]
        apply ih
        rcases List.any_eq_true.mp hany with ⟨x, hx, hpx⟩
        rcases List.mem_cons.mp hx with rfl | hxt
        · exact absurd (of_decide_eq_true hpx) hp
        · exact List.any_eq_true.mpr ⟨x, hxt, hpx⟩

lemma find?_map_replace_other (k : String) (v : HeartbeatStatus) (k' : String)
    (hk : k' ≠ k) :
    ∀ m : List (String × HeartbeatStatus),
      (m.map (fun p => if p.1 = k then (k, v) else p)).find?
          (fun p => p.1 = k') =
        m.find? (fun p => p.1 = k') := by
  intro m
  induction m with
  | nil => rfl
  | cons p t ih =>
      by_cases hp : p.1 = k
      · have h1 : ¬ (((k, v) : String × HeartbeatStatus).1 = k' : Prop) :=
          fun hh => hk hh.symm
        have h2 : ¬ ((p.1 = k' : Prop)) := by
          rw [hp]
          exact fun hh => hk hh.symm
        simp only [List.map_cons, if_pos hp]
        rw [List.find?_cons_of_neg _ (by simpa using h1),
          List.find?_cons_of_neg _ (by simpa using h2)]
        exact ih
      · simp only [List.map_cons, if_neg hp]
        by_cases hq : p.1 = k'
        · rw [List.find?_cons_of_pos _ (by simpa using hq),
            List.find?_cons_of_pos _ (by simpa using hq)]
        · rw [List.find?_cons_of_neg _ (by simpa using hq),
            List.find?_cons_of_neg _ (by simpa using hq)]
          exact ih

lemma mapLookup_mapInsert_self (m : List (String × HeartbeatStatus))
    (k : String) (v : HeartbeatStatus) :
    mapLookup (mapInsert m k v) k = some v := by
  unfold mapLookup mapInsert
  by_cases hany : (m.any fun p => p.1 = k) = true
  · rw [if_pos hany, find?_map_replace_self k v m hany]
    rfl
  · rw [if_neg hany, List.find?_append]
    have hany' : (m.any fun p => p.1 = k) = false := by
      rwa [Bool.not_eq_true] at hany
    have hnone : m.find? (fun p => p.1 = k) = none :=
      List.find?_eq_none.mpr (List.any_eq_false.mp hany')
    rw [hnone, List.find?_cons_of_pos _ (by simp)]
    rfl

lemma mapLookup_mapInsert_other (m : List (String × HeartbeatStatus))
    (k : String) (v : HeartbeatStatus) (k' : String) (hk : k' ≠ k) :
    mapLookup (mapInsert m k v) k' = mapLookup m k' := by
  unfold mapLookup mapInsert
  by_cases hany : (m.any fun p => p.1 = k) = true
  · rw [if_pos hany, find?_map_replace_other k v k' hk m]
  · rw [if_neg hany, List.find?_append]
    have h2 : ([(k, v)] : List (String × HeartbeatStatus)).find?
        (fun p => p.1 = k') = none := by
      rw [List.find?_cons_of_neg _
        (fun h => hk ((of_decide_eq_true h).symm))]
      rfl
    rw [h2, Option.or_none]

lemma nodup_keys_mapInsert (m : List (String × HeartbeatStatus))
    (k : String) (v : HeartbeatStatus)
    (h : (m.map Prod.fst).Nodup) :
    ((mapInsert m k v).map Prod.fst).Nodup := by
  unfold mapInsert
  by_cases hany : (m.any fun p => p.1 = k) = true
  · rw [if_pos hany]
    have hkeys : (m.map (fun p => if p.1 = k then (k, v) else p)).map
        Prod.fst = m.map Prod.fst := by
      rw [List.map_map]
      apply List.map_congr_left
      intro p _
      by_cases hp : p.1 = k
      · simp [Function.comp, hp]
      · simp [Function.comp, hp]
    rw [hkeys]
    exact h
  · rw [if_neg hany, List.map_append]
    have hk : k ∉ m.map Prod.fst := by
      intro hmem
      rcases List.mem_map.mp hmem with ⟨p, hp, hpk⟩
      exact hany (List.any_eq_true.mpr ⟨p, hp, by simpa using hpk⟩)
    rw [List.nodup_append]
    exact ⟨h, List.nodup_singleton k,
      fun a ha hb => hk (by rwa [List.mem_singleton.mp hb] at ha)⟩

lemma convertStep_not_wellFormed (m : List (String × HeartbeatStatus))
    (e : List Json) (h : ¬ wellFormedPair e) : convertStep m e = m := by
  match e with
  | [] => rfl
  | [k0] => rfl
  | k0 :: v1 :: x :: rest => rfl
  | [k0, v1] =>
      cases k0 with
      | str key =>
          cases hdec : decodeHeartbeatStatus v1 with
          | some hs => exact (h ⟨key, v1, hs, rfl, hdec⟩).elim
          | none => simp [convertStep, hdec]
      | null => rfl
      | bool b => rfl
      | num q => rfl
      | arr l => rfl
      | obj fs => rfl

lemma convertStep_no_insert (m : List (String × HeartbeatStatus))
    (e : List Json) (k : String) (h : ¬ insertsKey k e) :
    mapLookup (convertStep m e) k = mapLookup m k := by
  match e with
  | [] => rfl
  | [k0] => rfl
  | k0 :: v1 :: x :: rest => rfl
  | [k0, v1] =>
      cases k0 with
      | str key =>
          cases hdec : decodeHeartbeatStatus v1 with
          | some hs =>
              have hkey : key ≠ k := by
                intro hkk
                exact h ⟨v1, hs, by rw [hkk], hdec⟩
              simp only [convertStep, hdec]
              exact mapLookup_mapInsert_other m key hs k
                (fun hkk => hkey hkk.symm)
          | none => simp [convertStep, hdec]
      | null => rfl
      | bool b => rfl
      | num q => rfl
      | arr l => rfl
      | obj fs => rfl

lemma nodup_keys_convertStep (m : List (String × HeartbeatStatus))
    (e : List Json) (h : (m.map Prod.fst).Nodup) :
    ((convertStep m e).map Prod.fst).Nodup := by
  match e with
  | [] => exact h
  | [k0] => exact h
  | k0 :: v1 :: x :: rest => exact h
  | [k0, v1] =>
      cases k0 with
      | str key =>
          cases hdec : decodeHeartbeatStatus v1 with
          | some hs =>
              simp only [convertStep, hdec]
              exact nodup_keys_mapInsert m key hs h
          | none => simpa [convertStep, hdec] using h
      | null => exact h
      | bool b => exact h
      | num q => exact h
      | arr l => exact h
      | obj fs => exact h

lemma nodup_keys_foldl (ys : List (List Json)) :
    ∀ m : List (String × HeartbeatStatus), (m.map Prod.fst).Nodup →
      ((ys.foldl convertStep m).map Prod.fst).Nodup := by
  induction ys with
  | nil => intro m h; exact h
  | cons e t ih =>
      intro m h
      rw [List.foldl_cons]
      exact ih (convertStep m e) (nodup_keys_convertStep m e h)

lemma nodup_keys_convertPairs (pairs : List (List Json)) :
    ((convertPairs pairs).map Prod.fst).Nodup :=
  nodup_keys_foldl pairs [] List.nodup_nil

lemma isSome_convertStep (m : List (String × HeartbeatStatus))
    (e : List Json) (k : String) (h : (mapLookup m k).isSome) :
    (mapLookup (convertStep m e) k).isSome := by
  by_cases hin : insertsKey k e
  · rcases hin with ⟨v, hs, rfl, hdec⟩
    simp only [convertStep, hdec]
    rw [mapLookup_mapInsert_self]
    rfl
  · rw [convertStep_no_insert m e k hin]
    exact h

lemma isSome_foldl (ys : List (List Json)) :
    ∀ (m : List (String × HeartbeatStatus)) (k : String),
      (mapLookup m k).isSome →
      (mapLookup (ys.foldl convertStep m) k).isSome := by
  induction ys with
  | nil => intro m k h; exact h
  | cons e t ih =>
      intro m k h
      rw [List.foldl_cons]
      exact ih (convertStep m e) k (isSome_convertStep m e k h)

lemma foldl_no_insert (ys : List (List Json)) (k : String) :
    (∀ e ∈ ys, ¬ insertsKey k e) →
    ∀ m : List (String × HeartbeatStatus),
      mapLookup (ys.foldl convertStep m) k = mapLookup m k := by
  induction ys with
  | nil => intro _ m; rfl
  | cons e t ih =>
      intro h m
      rw [List.foldl_cons,
        ih (fun e' he' => h e' (List.mem_cons_of_mem _ he')) (convertStep m e)]
      exact convertStep_no_insert m e k (h e (List.mem_cons_self e t))

lemma countP_key_eq_one (k : String) :
    ∀ (m : List (String × HeartbeatStatus)) (v : HeartbeatStatus),
      (m.map Prod.fst).Nodup → mapLookup m k = some v →
      m.countP (fun p => p.1 = k) = 1 := by
  intro m
  induction m with
  | nil => intro v _ hlk; simp [mapLookup] at hlk
  | cons p t ih =>
      intro v hnd hlk
      have hnd' : (p.1 :: t.map Prod.fst).Nodup := by
        rwa [List.map_cons] at hnd
      by_cases hp : p.1 = k
      · rw [List.countP_cons_of_pos _ _ (by simpa using hp)]
        have ht : t.countP (fun q => q.1 = k) = 0 := by
          rw [List.countP_eq_zero]
          intro q hq hqk
          have hqk' : q.1 = k := of_decide_eq_true hqk
          have hmem : p.1 ∈ t.map Prod.fst := by
            rw [hp, ← hqk']
            exact List.mem_map_of_mem Prod.fst hq
          exact (List.nodup_cons.mp hnd').1 hmem
        rw [ht]
      · rw [List.countP_cons_of_neg _ _ (by simpa using hp)]
        have htail : mapLookup t k = some v := by
          unfold mapLookup at hlk ⊢
          rwa [List.find?_cons_of_neg _ (by simpa using hp)] at hlk
        exact ih v (List.nodup_cons.mp hnd').2 htail

/-- C4: a pair that is not length 2, or whose first element is not a
string, or whose second element does not decode into a HeartbeatStatus,
is silently excluded from the resulting mapping (removing it does not
change the result, and the conversion never fails), and every
well-formed pair's key is present in the resulting mapping. -/
theorem C4_pair_decode :
    (∀ (pre : List (List Json)) (bad : List Json) (post : List (List Json)),
      ¬ wellFormedPair bad →
      convertPairs (pre ++ bad :: post) = convertPairs (pre ++ post)) ∧
    (∀ (pairs : List (List Json)) (k : String) (v : Json),
      [Json.str k, v] ∈ pairs → (decodeHeartbeatStatus v).isSome →
      (mapLookup (convertPairs pairs) k).isSome) := by
  constructor
  · intro pre bad post hbad
    unfold convertPairs
    rw [List.foldl_append, List.foldl_append, List.foldl_cons,
      convertStep_not_wellFormed _ bad hbad]
  · intro pairs k v hmem hdec
    rcases List.append_of_mem hmem with ⟨l1, l2, rfl⟩
    rcases Option.isSome_iff_exists.mp hdec with ⟨hs, hhs⟩
    unfold convertPairs
    rw [List.foldl_append, List.foldl_cons]
    apply isSome_foldl
    have hstep : convertStep (List.foldl convertStep [] l1) [Json.str k, v] =
        mapInsert (List.foldl convertStep [] l1) k hs := by
      simp only [convertStep, hhs]
    rw [hstep, mapLookup_mapInsert_self]
    rfl

/-- Witness for C4: a 1-element pair is dropped without affecting the
rest, and a well-formed pair's key ends up in the map. -/
theorem C4_witness :
    convertPairs ([[Json.num 3]] ++ [Json.bool true] ::
        [[Json.str "a", Json.null]]) =
      convertPairs ([[Json.num 3]] ++ [[Json.str "a", Json.null]]) ∧
    (mapLookup (convertPairs [[Json.str "a", Json.null]]) "a").isSome := by
  refine ⟨C4_pair_decode.1 [[Json.num 3]] [Json.bool true]
    [[Json.str "a", Json.null]] ?_,
    C4_pair_decode.2 [[Json.str "a", Json.null]] "a" Json.null
      (List.mem_singleton.mpr rfl) rfl⟩
  rintro ⟨k, v, hs, heq, -⟩
  simp at heq

/-- C10: when the pair list ends (for key k) with a well-formed pair
[k, v] and no later pair inserts k, the resulting mapping maps k to the
decoded value of that last pair — later pairs overwrite earlier ones —
and contains exactly one entry for k. -/
theorem C10_duplicate_keys_last_wins
    (xs ys : List (List Json)) (k : String) (v : Json) (hs : HeartbeatStatus)
    (hdec : decodeHeartbeatStatus v = some hs)
    (hys : ∀ e ∈ ys, ¬ insertsKey k e) :
    mapLookup (convertPairs (xs ++ [Json.str k, v] :: ys)) k = some hs ∧
    (convertPairs (xs ++ [Json.str k, v] :: ys)).countP
      (fun p => p.1 = k) = 1 := by
  have hstep : convertStep (List.foldl convertStep [] xs) [Json.str k, v] =
      mapInsert (List.foldl convertStep [] xs) k hs := by
    simp only [convertStep, hdec]
  have heq : convertPairs (xs ++ [Json.str k, v] :: ys) =
      ys.foldl convertStep (mapInsert (List.foldl convertStep [] xs) k hs) := by
    unfold convertPairs
    rw [List.foldl_append, List.foldl_cons, hstep]
  have hlook : mapLookup (convertPairs (xs ++ [Json.str k, v] :: ys)) k =
      some hs := by
    rw [heq, foldl_no_insert ys k hys _, mapLookup_mapInsert_self]
  exact ⟨hlook, countP_key_eq_one k _ hs (nodup_keys_convertPairs _) hlook⟩

/-- Witness for C10: two well-formed pairs for key "a"; the decoded map
holds the second pair's status, once. -/
theorem C10_witness :
    mapLookup (convertPairs ([[Json.str "a", Json.obj []]] ++
      [Json.str "a", Json.obj [("since_last_success", Json.num 41)]] ::
        [])) "a" = some ⟨41, none⟩ ∧
    (convertPairs ([[Json.str "a", Json.obj []]] ++
      [Json.str "a", Json.obj [("since_last_success", Json.num 41)]] ::
        [])).countP (fun p => p.1 = "a") = 1 :=
  C10_duplicate_keys_last_wins [[Json.str "a", Json.obj []]] [] "a"
    (Json.obj [("since_last_success", Json.num 41)]) ⟨41, none⟩ rfl
    (fun e he => absurd he (List.not_mem_nil e))

lemma decodeHeartbeatStatus_obj_inv (fs : List (String × Json))
    (hs : HeartbeatStatus)
    (h : decodeHeartbeatStatus (Json.obj fs) = some hs) :
    decodeNumField (lookupLast fs "since_last_success") =
      some hs.sinceLastSuccess ∧
    decodeOptNumField (lookupLast fs "last_ack_duration") =
      some hs.lastAckDuration := by
  unfold decodeHeartbeatStatus at h
  dsimp only at h
  cases hsince : decodeNumField (lookupLast fs "since_last_success") with
  | none => rw [hsince] at h; simp at h
  | some s =>
      rw [hsince] at h
      cases hdur : decodeOptNumField (lookupLast fs "last_ack_duration") with
      | none => rw [hdur] at h; simp at h
      | some d =>
          rw [hdur] at h
          simp at h
          subst h
          exact ⟨rfl, rfl⟩

/-- C6: the decoded last_ack_duration round-trips — a missing key or a
null value decodes to absent, a numeric value decodes to exactly that
value, and a decoded present zero is distinguishable from a decoded
absence. -/
theorem C6_last_ack_roundtrip :
    (∀ (fs : List (String × Json)) (hs : HeartbeatStatus),
      decodeHeartbeatStatus (Json.obj fs) = some hs →
      (lookupLast fs "last_ack_duration" = none →
        hs.lastAckDuration = none) ∧
      (lookupLast fs "last_ack_duration" = some Json.null →
        hs.lastAckDuration = none) ∧
      (∀ q : ℚ, lookupLast fs "last_ack_duration" = some (Json.num q) →
        hs.lastAckDuration = some q)) ∧
    decodeHeartbeatStatus (Json.obj [("last_ack_duration", Json.num 0)]) ≠
      decodeHeartbeatStatus (Json.obj []) := by
  constructor
  · intro fs hs hdec
    have hinv := (decodeHeartbeatStatus_obj_inv fs hs hdec).2
    refine ⟨?_, ?_, ?_⟩
    · intro hl
      rw [hl] at hinv
      exact (Option.some.inj hinv).symm
    · intro hl
      rw [hl] at hinv
      exact (Option.some.inj hinv).symm
    · intro q hl
      rw [hl] at hinv
      exact (Option.some.inj hinv).symm
  · decide

/-- Witness for C6: a status object with no last_ack_duration key
decodes with the field absent. -/
theorem C6_witness :
    ∃ hs, decodeHeartbeatStatus
        (Json.obj [("since_last_success", Json.num 10)]) = some hs ∧
      hs.lastAckDuration = none :=
  ⟨⟨10, none⟩, rfl,
    (C6_last_ack_roundtrip.1 [("since_last_success", Json.num 10)]
      ⟨10, none⟩ rfl).1 rfl⟩

lemma charListLt_irrefl : ∀ l : List Char, charListLt l l = false
  | [] => rfl
  | c :: cs => by simp [charListLt, charListLt_irrefl cs]

lemma charListLt_asymm : ∀ a b : List Char,
    charListLt a b = true → charListLt b a = false
  | a, [] => by intro h; simp [charListLt] at h
  | [], d :: ds => by intro _; rfl
  | c :: cs, d :: ds => by
      intro h
      by_cases h1 : c.toNat < d.toNat
      · have h2 : ¬ d.toNat < c.toNat := Nat.lt_asymm h1
        simp [charListLt, h1, h2]
      · by_cases h2 : d.toNat < c.toNat
        · simp [charListLt, h1, h2] at h
        · simp only [charListLt, if_neg h1, if_neg h2] at h
          simp only [charListLt, if_neg h2, if_neg h1]
          exact charListLt_asymm cs ds h

lemma charListLt_connex : ∀ a b : List Char,
    charListLt a b = false → charListLt b a = false → a = b
  | [], [] => by intro _ _; rfl
  | [], d :: ds => by intro h _; simp [charListLt] at h
  | c :: cs, [] => by intro _ h; simp [charListLt] at h
  | c :: cs, d :: ds => by
      intro h1 h2
      by_cases hcd : c.toNat < d.toNat
      · simp [charListLt, hcd] at h1
      · by_cases hdc : d.toNat < c.toNat
        · simp [charListLt, hdc] at h2
        · have hceq : c = d :=
            Char.ext (UInt32.ext
              (Nat.le_antisymm (Nat.le_of_not_lt hdc) (Nat.le_of_not_lt hcd)))
          simp only [charListLt, if_neg hcd, if_neg hdc] at h1
          simp only [charListLt, if_neg hdc, if_neg hcd] at h2
          rw [hceq, charListLt_connex cs ds h1 h2]

lemma charListLt_trans : ∀ a b c : List Char,
    charListLt a b = true → charListLt b c = true → charListLt a c = true
  | _, b, [] => by intro _ h2; simp [charListLt] at h2
  | [], b, e :: es => by intro _ _; rfl
  | c :: cs, [], e :: es => by intro h1 _; simp [charListLt] at h1
  | c :: cs, d :: ds, e :: es => by
      intro h1 h2
      by_cases h_cd : c.toNat < d.toNat
      · by_cases h_de : d.toNat < e.toNat
        · simp [charListLt, Nat.lt_trans h_cd h_de]
        · by_cases h_ed : e.toNat < d.toNat
          · simp [charListLt, h_de, h_ed] at h2
          · have he : d.toNat = e.toNat :=
              Nat.le_antisymm (Nat.le_of_not_lt h_ed) (Nat.le_of_not_lt h_de)
            have : c.toNat < e.toNat := he ▸ h_cd
            simp [charListLt, this]
      · by_cases h_dc : d.toNat < c.toNat
        · simp [charListLt, h_cd, h_dc] at h1
        · have hcd_eq : c.toNat = d.toNat :=
            Nat.le_antisymm (Nat.le_of_not_lt h_dc) (Nat.le_of_not_lt h_cd)
          simp only [charListLt, if_neg h_cd, if_neg h_dc] at h1
          by_cases h_de : d.toNat < e.toNat
          · have : c.toNat < e.toNat := hcd_eq ▸ h_de
            simp [charListLt, this]
          · by_cases h_ed : e.toNat < d.toNat
            · simp [charListLt, h_de, h_ed] at h2
            · have hde_eq : d.toNat = e.toNat :=
                Nat.le_antisymm (Nat.le_of_not_lt h_ed) (Nat.le_of_not_lt h_de)
              simp only [charListLt, if_neg h_de, if_neg h_ed] at h2
              have htail : charListLt cs es = true :=
                charListLt_trans cs ds es h1 h2
              have hce : c.toNat = e.toNat := hcd_eq.trans hde_eq
              simp [charListLt, hce, htail]

lemma goStringLt_irrefl (a : String) : goStringLt a a = false :=
  charListLt_irrefl a.toList

lemma goStringLt_asymm (a b : String) (h : goStringLt a b = true) :
    goStringLt b a = false :=
  charListLt_asymm a.toList b.toList h

lemma goStringLt_false_trans (a b c : String)
    (h1 : goStringLt a b = false) (h2 : goStringLt b c = false) :
    goStringLt a c = false := by
  cases hac : goStringLt a c with
  | false => rfl
  | true =>
      exfalso
      cases hba : goStringLt b a with
      | true =>
          have hbc : charListLt b.toList c.toList = true :=
            charListLt_trans b.toList a.toList c.toList hba hac
          exact Bool.noConfusion (h2.symm.trans hbc)
      | false =>
          have heqL : a.toList = b.toList :=
            charListLt_connex a.toList b.toList h1 hba
          have hbc : charListLt b.toList c.toList = true := heqL ▸ hac
          exact Bool.noConfusion (h2.symm.trans hbc)

lemma foldMax_ge_init (l : List String) :
    ∀ init : String,
      goStringLt
        (l.foldl (fun acc x => if goStringLt acc x then x else acc) init)
        init = false := by
  induction l with
  | nil => intro init; exact goStringLt_irrefl init
  | cons y t ih =>
      intro init
      rw [List.foldl_cons]
      have hstep : goStringLt (if goStringLt init y then y else init) init =
          false := by
        cases hy : goStringLt init y with
        | true => exact goStringLt_asymm init y hy
        | false => exact goStringLt_irrefl init
      exact goStringLt_false_trans _ _ _
        (ih (if goStringLt init y then y else init)) hstep

lemma foldMax_ge (l : List String) :
    ∀ (init x : String), x ∈ l →
      goStringLt
        (l.foldl (fun acc y => if goStringLt acc y then y else acc) init)
        x = false := by
  induction l with
  | nil => intro init x hx; exact absurd hx (List.not_mem_nil x)
  | cons y t ih =>
      intro init x hx
      rw [List.foldl_cons]
      rcases List.mem_cons.mp hx with rfl | hxt
      · have hstep : goStringLt (if goStringLt init x then x else init) x =
            false := by
          cases hy : goStringLt init x with
          | true => exact goStringLt_irrefl x
          | false => exact hy
        exact goStringLt_false_trans _ _ _ (foldMax_ge_init t _) hstep
      · exact ih _ x hxt

lemma foldMax_mem (l : List String) :
    ∀ init : String,
      l.foldl (fun acc y => if goStringLt acc y then y else acc) init =
        init ∨
      l.foldl (fun acc y => if goStringLt acc y then y else acc) init ∈ l := by
  induction l with
  | nil => intro init; exact Or.inl rfl
  | cons y t ih =>
      intro init
      rw [List.foldl_cons]
      rcases ih (if goStringLt init y then y else init) with h | h
      · rw [h]
        cases hy : goStringLt init y with
        | true => exact Or.inr (List.mem_cons_self y t)
        | false => exact Or.inl rfl
      · exact Or.inr (List.mem_cons_of_mem y h)

/-- C7: the file comparator compares numerically when both names parse
fully as integers and byte-wise lexicographically otherwise; the
locator sorts the whole list with that single comparator and selects
the last element — among "10", "2", "9" it selects "10" — and an empty
file list yields the no-files-found error. -/
theorem C7_latest_file :
    (∀ (a b : String) (x y : Int), goAtoi a = some x → goAtoi b = some y →
      fileLess a b = decide (x < y)) ∧
    (∀ a b : String, (goAtoi a = none ∨ goAtoi b = none) →
      fileLess a b = goStringLt a b) ∧
    (∀ dirPath : String, findLatestFile dirPath [] =
      Except.error ("no files found in " ++ dirPath)) ∧
    findLatestFile "logs" ["10", "2", "9"] =
      Except.ok ("logs" ++ "/" ++ "10") := by
  refine ⟨?_, ?_, fun dirPath => rfl, rfl⟩
  · intro a b x y hx hy
    unfold fileLess
    rw [hx, hy]
  · intro a b h
    unfold fileLess
    rcases h with h | h
    · rw [h]
    · rw [h]
      cases hga : goAtoi a with
      | none => rfl
      | some x => rfl

/-- Witness for C7: "10" and "9" both parse, so they compare
numerically and "10" is not less than "9". -/
theorem C7_witness : fileLess "10" "9" = false :=
  (C7_latest_file.1 "10" "9" 10 9 rfl rfl).trans (by decide)

/-- C8: for a non-empty directory listing, the locator returns the base
path joined with a listed name that no listed name lexicographically
exceeds (the lexicographic maximum) — among the three date-stamped
names it selects "2024-01-02" — and an empty listing yields the
no-directories-found error. -/
theorem C8_latest_dir :
    (∀ basePath : String, findLatestDir basePath [] =
      Except.error ("no directories found in " ++ basePath)) ∧
    (∀ (basePath d : String) (rest : List String),
      ∃ m, findLatestDir basePath (d :: rest) =
          Except.ok (basePath ++ "/" ++ m) ∧
        m ∈ d :: rest ∧ ∀ x ∈ d :: rest, goStringLt m x = false) ∧
    findLatestDir "b" ["2024-01-01", "2024-01-02", "2023-12-31"] =
      Except.ok ("b" ++ "/" ++ "2024-01-02") := by
  refine ⟨fun basePath => rfl, ?_, rfl⟩
  intro basePath d rest
  refine ⟨(d :: rest).foldl
    (fun acc x => if goStringLt acc x then x else acc) d, rfl, ?_, ?_⟩
  · rcases foldMax_mem (d :: rest) d with h | h
    · rw [h]; exact List.mem_cons_self d rest
    · exact h
  · intro x hx
    exact foldMax_ge (d :: rest) d x hx

/-- Witness for C8: the middle-listed name is selected as maximum. -/
theorem C8_witness :
    ∃ m, findLatestDir "p" ("x" :: ["z", "y"]) =
        Except.ok ("p" ++ "/" ++ m) ∧
      m ∈ "x" :: ["z", "y"] ∧
      ∀ x ∈ "x" :: ["z", "y"], goStringLt m x = false :=
  C8_latest_dir.2.1 "p" "x" ["z", "y"]

end Hlmon
